import Mathlib

/-!
Verification development for the zimagi aider module.

The embedded code comes from two source files:

* `commands/mixins/aider.py` — `AiderMixin.get_aider_session`, the recursive
  context-fitting algorithm that drops the last read-only candidate file until
  the session's remaining token headroom reaches the caller's `write_tokens`
  reservation.
* `utility/aider.py` — `AiderSessionInfo` (the budget snapshot), its `load`
  method and helpers (`token_unit_cost`, `max_tokens`, `_get_system_messages`),
  and the `AiderFileInfo` record.

The external aider engine (the `Coder`, tokenizer, model metadata, repo map,
file IO) is modelled as an abstract state record `Coder` holding opaque
functions; the snapshot computation `load` is translated statement by
statement from the Python source over that state.
-/

namespace ZimagiAider

/-! ## Definitions: the shallow embedding of the source -/

/-- Error signalled by `self.error("Aider session has no context")` in
`AiderMixin.get_aider_session`. -/
inductive ContextError where
  | contextExhausted
deriving DecidableEq

/-- Shallow embedding of the inner `_get_aider_session(read_files)` recursion of
`AiderMixin.get_aider_session` (commands/mixins/aider.py).

The Python code builds an `Aider` engine from the current `read_files`
candidate list and inspects `session.info.remaining_tokens`.  All constructor
arguments other than `read_files` are fixed for the duration of the recursion,
so the engine build and snapshot are abstracted into the function
`remaining : List α → Int`, mapping a candidate list to the rebuilt session's
`remaining_tokens`.  The result models the returned session by its read-only
file list.

Python source:
```
def _get_aider_session(read_files):
    session = Aider(..., read_files=read_files, ...)
    if session.info.remaining_tokens < self.write_tokens:
        if len(read_files[:-1]) > 0:
            return _get_aider_session(read_files[:-1])
        elif error_if_no_context:
            self.error("Aider session has no context")
    return session
```
-/
def fit {α : Type} (remaining : List α → Int) (writeTokens : Int)
    (errorIfNoContext : Bool) (files : List α) : Except ContextError (List α) :=
  if remaining files < writeTokens then
    if 0 < files.dropLast.length then
      fit remaining writeTokens errorIfNoContext files.dropLast
    else if errorIfNoContext then
      Except.error ContextError.contextExhausted
    else
      Except.ok files
  else
    Except.ok files
termination_by files.length
decreasing_by
  simp only [List.length_dropLast] at *
  omega

/-- A chat message: a Python dict with `"role"` and `"content"` keys. -/
structure Message where
  role : String
  content : String
deriving DecidableEq

/-- The model metadata dictionary `main_model.info`.  The two keys the
snapshot consults may be absent (`dict.get` returns `None`).  The published
cost figure is a Python float; floating point is not embedded here, so
currency amounts are carried exactly as integers (think smallest currency
units): every cost statement proved below is an algebraic identity in the
carrier and does not depend on this choice. -/
structure ModelInfo where
  input_cost_per_token : Option Int
  max_input_tokens : Option Nat
deriving DecidableEq

/-- The engine's `main_model`.  Python's `token_count` accepts either a list
of messages or a plain string; the two uses are split into two fields.
`token_count_for_image` is the image-specific counter. -/
structure MainModel where
  info : ModelInfo
  token_count_messages : List Message → Nat
  token_count_text : String → Nat
  token_count_for_image : String → Nat

/-- The engine state visible to `AiderSessionInfo`: the aider `Coder` fields
it reads, plus the `InputOutput.read_text` collaborator, the
`aider.utils.is_image_file` predicate, and the `gpt_prompts` texts.  All of
these belong to the external engine and are therefore opaque data/functions
here.  `has_repo_map` models the truthiness of `self._coder.repo_map`, and
`get_repo_map` its `get_repo_map(abs_fnames, other_files)` method. -/
structure Coder where
  main_model : MainModel
  abs_fnames : List String
  abs_read_only_fnames : List String
  done_messages : List Message
  cur_messages : List Message
  get_all_abs_files : List String
  has_repo_map : Bool
  get_repo_map : List String → List String → Option String
  get_rel_fname : String → String
  read_text : String → Option String
  is_image_file : String → Bool
  main_system : String
  system_reminder : String
  fmt_system_prompt : String → String

/-- `AiderFileInfo` (utility/aider.py): the per-file record. -/
structure AiderFileInfo where
  name : String
  readonly : Bool
  tokens : Nat
  cost : Int
deriving DecidableEq

/-- The `AiderFileInfo.__init__` constructor: it stores its arguments and
derives `cost = tokens * token_unit_cost`. -/
def AiderFileInfo.make (name : String) (tokens : Nat) (token_unit_cost : Int)
    (readonly : Bool) : AiderFileInfo :=
  ⟨name, readonly, tokens, (tokens : Int) * token_unit_cost⟩

/-- The numeric state of an `AiderSessionInfo` right after `load()` ran.
`files` is the Python dict `self.files` as an insertion-ordered association
list from relative path to record. -/
structure AiderSessionInfo where
  system_tokens : Nat
  system_token_cost : Int
  chat_tokens : Nat
  chat_token_cost : Int
  repo_map_tokens : Nat
  repo_map_token_cost : Int
  total_tokens : Nat
  total_cost : Int
  max_tokens : Nat
  remaining_tokens : Int
  files : List (String × AiderFileInfo)
deriving DecidableEq

/-- `AiderSessionInfo.token_unit_cost`:
`self._coder.main_model.info.get("input_cost_per_token") or 0`.
`Option.getD 0` matches Python's `x or 0` here: an absent key degrades to
`0`, and the only falsy numeric value a present key could hold is `0`
itself, which `or` maps to `0` as well. -/
def token_unit_cost (c : Coder) : Int :=
  c.main_model.info.input_cost_per_token.getD 0

/-- `AiderSessionInfo.max_tokens`:
`self._coder.main_model.info.get("max_input_tokens") or 0`. -/
def max_tokens (c : Coder) : Nat :=
  c.main_model.info.max_input_tokens.getD 0

/-- `self._fence`, set once in `AiderSessionInfo.__init__` to three
backtick characters and used for every file rendering. -/
def fence : String := "```"

/-- `AiderSessionInfo._get_system_messages`: the combined system message (main
system prompt, a newline, then the system-reminder prompt) followed by a
standalone system message holding the reminder prompt alone. -/
def get_system_messages (c : Coder) : List Message :=
  [⟨"system", c.fmt_system_prompt c.main_system ++ "\n"
      ++ c.fmt_system_prompt c.system_reminder⟩,
   ⟨"system", c.fmt_system_prompt c.system_reminder⟩]

/-- The f-string rendering of a text file in `load()`:
`f"{relative_file_path}\n{self._fence}\n" + content + f"{self._fence}\n"`. -/
def renderFile (rel content : String) : String :=
  rel ++ "\n" ++ fence ++ "\n" ++ content ++ fence ++ "\n"

/-- Python dict assignment `self.files[relative_file_path] = info` on the
insertion-ordered association list: replace the value in place when the key
is present, append otherwise. -/
def dictInsert : List (String × AiderFileInfo) → String → AiderFileInfo →
    List (String × AiderFileInfo)
  | [], k, v => [(k, v)]
  | p :: rest, k, v => if p.1 = k then (k, v) :: rest else p :: dictInsert rest k v

/-- Python dict lookup `self.files.get(k)`. -/
def dictFind : List (String × AiderFileInfo) → String → Option AiderFileInfo
  | [], _ => none
  | p :: rest, k => if p.1 = k then some p.2 else dictFind rest k

/-- Failure mode of `load()`: the Python `TypeError` raised by the unguarded
string concatenation `f"...{fence}\n" + content` when `io.read_text`
returns `None` for a writable, non-image file. -/
inductive LoadError where
  | typeError
deriving DecidableEq

/-- The writable-file loop of `load()` (the `for file_path in
self._coder.abs_fnames` loop): read the content, use the image counter for
image files and the fenced text rendering otherwise, and record a
non-read-only `AiderFileInfo`.  A `None` content for a non-image file makes
the concatenation raise, modelled as `LoadError.typeError`.  (In the source
`content = io.read_text(file_path)` is evaluated before the image test but
consumed only in the non-image branch; `read_text` is an effect-free
collaborator call here, so the read is placed in the branch that uses it.) -/
def loadWriteFiles (c : Coder) : List String → List (String × AiderFileInfo) →
    Except LoadError (List (String × AiderFileInfo))
  | [], acc => Except.ok acc
  | fp :: rest, acc =>
    if c.is_image_file (c.get_rel_fname fp) then
      loadWriteFiles c rest
        (dictInsert acc (c.get_rel_fname fp)
          (AiderFileInfo.make (c.get_rel_fname fp)
            (c.main_model.token_count_for_image fp) (token_unit_cost c) false))
    else
      match c.read_text fp with
      | none => Except.error LoadError.typeError
      | some content =>
        loadWriteFiles c rest
          (dictInsert acc (c.get_rel_fname fp)
            (AiderFileInfo.make (c.get_rel_fname fp)
              (c.main_model.token_count_text
                (renderFile (c.get_rel_fname fp) content))
              (token_unit_cost c) false))

/-- The read-only loop of `load()` (the `for file_path in
self._coder.abs_read_only_fnames` loop): a record is written only when
`content is not None and not is_image_file(relative_file_path)`; every other
file is skipped silently. -/
def loadReadFiles (c : Coder) : List String → List (String × AiderFileInfo) →
    List (String × AiderFileInfo)
  | [], acc => acc
  | fp :: rest, acc =>
    match c.read_text fp with
    | some content =>
      if c.is_image_file (c.get_rel_fname fp) then
        loadReadFiles c rest acc
      else
        loadReadFiles c rest
          (dictInsert acc (c.get_rel_fname fp)
            (AiderFileInfo.make (c.get_rel_fname fp)
              (c.main_model.token_count_text
                (renderFile (c.get_rel_fname fp) content))
              (token_unit_cost c) true))
    | none => loadReadFiles c rest acc

/-- System prompt token count in `load()`:
`self._coder.main_model.token_count(self._get_system_messages())`. -/
def system_tokens_of (c : Coder) : Nat :=
  c.main_model.token_count_messages (get_system_messages c)

/-- `self.system_token_cost = self.system_tokens * self.token_unit_cost`. -/
def system_token_cost_of (c : Coder) : Int :=
  (system_tokens_of c : Int) * token_unit_cost c

/-- `messages = self._coder.done_messages + self._coder.cur_messages`. -/
def chat_messages_of (c : Coder) : List Message :=
  c.done_messages ++ c.cur_messages

/-- Chat token count: assigned under `if messages:`, left at the `reset()`
value `0` when there is no conversation yet. -/
def chat_tokens_of (c : Coder) : Nat :=
  if chat_messages_of c = [] then 0
  else c.main_model.token_count_messages (chat_messages_of c)

/-- Chat token cost, assigned under the same `if messages:` guard. -/
def chat_token_cost_of (c : Coder) : Int :=
  if chat_messages_of c = [] then 0
  else (chat_tokens_of c : Int) * token_unit_cost c

/-- Repo-map token count:
`files = set(get_all_abs_files()) - set(abs_fnames)`, then
`repo_content = repo_map.get_repo_map(abs_fnames, files)` when a repo map is
configured, counted only when `repo_content` is truthy (not `None`, not
empty); otherwise the `reset()` value `0` stands. -/
def repo_map_tokens_of (c : Coder) : Nat :=
  if c.has_repo_map then
    match c.get_repo_map c.abs_fnames
        (c.get_all_abs_files.filter (fun f => !c.abs_fnames.contains f)) with
    | some repoContent =>
      if repoContent = "" then 0 else c.main_model.token_count_text repoContent
    | none => 0
  else 0

/-- Repo-map token cost.  In the source the assignment
`repo_map_token_cost = repo_map_tokens * token_unit_cost` happens under the
same truthiness guard as the token count; outside the guard both stay `0`
from `reset()`, and `0 * unit_cost = 0`, so the unguarded product coincides
with the source in every case. -/
def repo_map_token_cost_of (c : Coder) : Int :=
  (repo_map_tokens_of c : Int) * token_unit_cost c

/-- The tail of `load()`: totals start from the three aggregate components
and the `for file_path, info in self.files.items()` loop adds every file
record's tokens and cost; `remaining_tokens = max_tokens - total_tokens`
(computed in `Int`, since it may be negative). -/
def snapshotOf (c : Coder) (files : List (String × AiderFileInfo)) :
    AiderSessionInfo :=
  let totalTokens := files.foldl (fun acc p => acc + p.2.tokens)
    (system_tokens_of c + chat_tokens_of c + repo_map_tokens_of c)
  let totalCost := files.foldl (fun acc p => acc + p.2.cost)
    (system_token_cost_of c + chat_token_cost_of c + repo_map_token_cost_of c)
  { system_tokens := system_tokens_of c
    system_token_cost := system_token_cost_of c
    chat_tokens := chat_tokens_of c
    chat_token_cost := chat_token_cost_of c
    repo_map_tokens := repo_map_tokens_of c
    repo_map_token_cost := repo_map_token_cost_of c
    total_tokens := totalTokens
    total_cost := totalCost
    max_tokens := max_tokens c
    remaining_tokens := (max_tokens c : Int) - (totalTokens : Int)
    files := files }

/-- `AiderSessionInfo.load()`: recompute every aggregate from the live engine
state — system prompt, chat history, repo map, then the writable pass over
`abs_fnames` followed by the read-only pass over `abs_read_only_fnames` into
the `files` dict, and finally the totals and the remaining headroom.
(`choose_fence()` only mutates engine-internal state and `reset()` only
zeroes the fields recomputed below, so neither needs a separate model.) -/
def load (c : Coder) : Except LoadError AiderSessionInfo :=
  match loadWriteFiles c c.abs_fnames [] with
  | Except.error e => Except.error e
  | Except.ok writeRecords =>
    Except.ok (snapshotOf c (loadReadFiles c c.abs_read_only_fnames writeRecords))

/-- Bool-valued view: does the files dict hold a read-only-marked record at a
key? -/
def readonlyAt (files : List (String × AiderFileInfo)) (k : String) : Bool :=
  match dictFind files k with
  | some info => info.readonly
  | none => false

/-- The files dict of a successful `load`, or `[]` on failure. -/
def loadFiles (c : Coder) : List (String × AiderFileInfo) :=
  match load c with
  | Except.ok s => s.files
  | Except.error _ => []

/-- No two distinct tracked files (writable or read-only) share a relative
name.  This always holds in the real engine, where `get_rel_fname` is
`os.path.relpath` on distinct absolute paths. -/
def RelInj (c : Coder) : Prop :=
  ∀ a ∈ c.abs_fnames ++ c.abs_read_only_fnames,
    ∀ b ∈ c.abs_fnames ++ c.abs_read_only_fnames,
      c.get_rel_fname a = c.get_rel_fname b → a = b

/-- A heap of Python list objects: a store of cells and the next fresh
reference.  A reference `r` is valid when `r < next`. -/
structure PyHeap where
  cells : Nat → List String
  next : Nat

/-- Allocate a fresh list object holding `v`. -/
def heapAlloc (h : PyHeap) (v : List String) : Nat × PyHeap :=
  (h.next, ⟨fun i => if i = h.next then v else h.cells i, h.next + 1⟩)

/-- `copy.deepcopy(self.read_files)`: a fresh list object with the same
elements (strings are immutable, so element-level copying is the
identity). -/
def deepcopy (h : PyHeap) (r : Nat) : Nat × PyHeap :=
  heapAlloc h (h.cells r)

/-- `AiderMixin.get_aider_session` over the heap model: deep-copy the list
object stored at `readFilesRef`, then run the fitting recursion on the
copy's value.  The recursion itself is value-level because its only list
operation is the slice `read_files[:-1]`, which in Python builds a new list
and never mutates its operand, and no statement of `_get_aider_session`
assigns into any list. -/
def get_aider_session (remaining : List String → Int) (writeTokens : Int)
    (errorIfNoContext : Bool) (h : PyHeap) (readFilesRef : Nat) :
    Except ContextError (List String) × PyHeap :=
  (fit remaining writeTokens errorIfNoContext
      ((deepcopy h readFilesRef).2.cells (deepcopy h readFilesRef).1),
   (deepcopy h readFilesRef).2)

/-- Equality of `load` results is decidable, so concrete runs of `load` can
be checked by evaluation. -/
instance : DecidableEq (Except LoadError AiderSessionInfo) := fun x y =>
  match x, y with
  | Except.ok a, Except.ok b =>
    match decEq a b with
    | isTrue h => isTrue (h ▸ rfl)
    | isFalse h => isFalse (fun hh => h (Except.ok.inj hh))
  | Except.error a, Except.error b =>
    match decEq a b with
    | isTrue h => isTrue (h ▸ rfl)
    | isFalse h => isFalse (fun hh => h (Except.error.inj hh))
  | Except.ok _, Except.error _ => isFalse (fun hh => Except.noConfusion hh)
  | Except.error _, Except.ok _ => isFalse (fun hh => Except.noConfusion hh)

/-- A concrete engine state used to evaluate the theorems: one writable file
`"w.txt"` (content `"W"`), read-only candidates `"a.txt"` (content `"A"`),
`"none.txt"` (unreadable) and `"w.txt"` again (overlap with the writable
set), a one-message chat, a repo map, and metadata cost 2 / max 1000.  The
collaborator functions count a message list by total content length and a
string by its length. -/
def cW : Coder :=
  { main_model :=
      { info := { input_cost_per_token := some 2, max_input_tokens := some 1000 }
        token_count_messages := fun ms => (ms.map (fun m => m.content.length)).sum
        token_count_text := fun s => s.length
        token_count_for_image := fun _ => 7 }
    abs_fnames := ["w.txt"]
    abs_read_only_fnames := ["a.txt", "none.txt", "w.txt"]
    done_messages := []
    cur_messages := [⟨"user", "hi"⟩]
    get_all_abs_files := ["w.txt", "a.txt", "z.txt"]
    has_repo_map := true
    get_repo_map := fun _ _ => some ("MAP")
    get_rel_fname := fun s => s
    read_text := fun s =>
      if s = "w.txt" then some ("W")
      else if s = "a.txt" then some ("A") else none
    is_image_file := fun _ => false
    main_system := "MS"
    system_reminder := "SR"
    fmt_system_prompt := fun s => s }

/-- A concrete engine state whose single path `"img.png"` is an image file
present in both the writable and the read-only set; the cost metadata key is
absent. -/
def cImg : Coder :=
  { main_model :=
      { info := { input_cost_per_token := none, max_input_tokens := some 100 }
        token_count_messages := fun _ => 0
        token_count_text := fun s => s.length
        token_count_for_image := fun _ => 7 }
    abs_fnames := ["img.png"]
    abs_read_only_fnames := ["img.png"]
    done_messages := []
    cur_messages := []
    get_all_abs_files := []
    has_repo_map := false
    get_repo_map := fun _ _ => none
    get_rel_fname := fun s => s
    read_text := fun _ => some ("X")
    is_image_file := fun s => s = "img.png"
    main_system := ""
    system_reminder := ""
    fmt_system_prompt := fun s => s }

/-- The snapshot `load cW` computes: system = len("MS\nSR") + len("SR") = 7,
chat = len("hi") = 2, repo map = len("MAP") = 3, each file rendering
`name\n<fence>\ncontent<fence>\n` = 15 tokens, both files read-only-marked
(the read-only pass overwrote `"w.txt"`). -/
def sW : AiderSessionInfo :=
  { system_tokens := 7, system_token_cost := 14, chat_tokens := 2, chat_token_cost := 4,
    repo_map_tokens := 3, repo_map_token_cost := 6, total_tokens := 42, total_cost := 84,
    max_tokens := 1000, remaining_tokens := 958,
    files := [("w.txt", ⟨"w.txt", true, 15, 30⟩), ("a.txt", ⟨"a.txt", true, 15, 30⟩)] }


/-- The snapshot `load cImg` computes: only the writable image record (7
image tokens, cost degraded to 0). -/
def sImg : AiderSessionInfo :=
  { system_tokens := 0, system_token_cost := 0, chat_tokens := 0, chat_token_cost := 0,
    repo_map_tokens := 0, repo_map_token_cost := 0, total_tokens := 7, total_cost := 0,
    max_tokens := 100, remaining_tokens := 93,
    files := [("img.png", ⟨"img.png", false, 7, 0⟩)] }


/-- `cW` with the unreadable non-image file moved into the writable set, so
the writable pass raises. -/
def cBad : Coder := { cW with abs_fnames := ["none.txt"] }

/-- `cImg` with both metadata keys absent. -/
def cZ : Coder :=
  { cImg with main_model :=
      { cImg.main_model with
          info := { input_cost_per_token := none, max_input_tokens := none } } }

/-- `cImg` with the image file only in the read-only set. -/
def cImg2 : Coder := { cImg with abs_fnames := [] }

/-- The snapshot `load cImg2` computes: the read-only pass skips the image,
so nothing is recorded at all. -/
def sImg2 : AiderSessionInfo :=
  { system_tokens := 0, system_token_cost := 0, chat_tokens := 0, chat_token_cost := 0,
    repo_map_tokens := 0, repo_map_token_cost := 0, total_tokens := 0, total_cost := 0,
    max_tokens := 100, remaining_tokens := 100, files := [] }

/-! ## Theorems -/

/-- One-step unfolding of `fit`, stated as an equation usable by `rw`. -/
theorem fit_eq {α : Type} (remaining : List α → Int) (writeTokens : Int)
    (errorIfNoContext : Bool) (files : List α) :
    fit remaining writeTokens errorIfNoContext files =
      if remaining files < writeTokens then
        if 0 < files.dropLast.length then
          fit remaining writeTokens errorIfNoContext files.dropLast
        else if errorIfNoContext then
          Except.error ContextError.contextExhausted
        else
          Except.ok files
      else
        Except.ok files := by
  rw [fit]

/-- `List.dropLast` removes exactly the last element: it is the take of all but
the final position. -/
theorem dropLast_eq_take_pred {α : Type} (l : List α) :
    l.dropLast = l.take (l.length - 1) := by
  induction l with
  | nil => rfl
  | cons a t ih =>
    cases t with
    | nil => rfl
    | cons b t2 =>
      simp only [List.dropLast_cons₂, List.length_cons, Nat.add_sub_cancel, List.take_succ_cons]
      simpa using ih

/-- Any successful result of `fit` is an initial segment of the candidate list
it was started from, and is no longer than it. -/
theorem fit_ok_take {α : Type} (remaining : List α → Int) (writeTokens : Int)
    (errorIfNoContext : Bool) :
    ∀ (n : Nat) (files result : List α), files.length ≤ n →
      fit remaining writeTokens errorIfNoContext files = Except.ok result →
      result = files.take result.length ∧ result.length ≤ files.length := by
  intro n
  induction n with
  | zero =>
    intro files result hlen h
    rw [fit_eq] at h
    have hnil : files = [] := List.length_eq_zero.mp (Nat.le_zero.mp hlen)
    subst hnil
    simp only [List.dropLast_nil, List.length_nil, lt_self_iff_false, if_false] at h
    by_cases hrem : remaining [] < writeTokens
    · rw [if_pos hrem] at h
      by_cases he : errorIfNoContext
      · rw [if_pos he] at h
        exact absurd h (by simp)
      · rw [if_neg he] at h
        cases h
        exact ⟨rfl, Nat.le_refl _⟩
    · rw [if_neg hrem] at h
      cases h
      exact ⟨rfl, Nat.le_refl _⟩
  | succ m ih =>
    intro files result hlen h
    rw [fit_eq] at h
    by_cases hrem : remaining files < writeTokens
    · rw [if_pos hrem] at h
      by_cases hdrop : 0 < files.dropLast.length
      · rw [if_pos hdrop] at h
        have hlen2 : files.dropLast.length ≤ m := by
          simp only [List.length_dropLast] at *
          omega
        obtain ⟨htake, hle⟩ := ih files.dropLast result hlen2 h
        have hle2 : result.length ≤ files.length - 1 := by
          simpa only [List.length_dropLast] using hle
        constructor
        · rw [dropLast_eq_take_pred, List.take_take, Nat.min_eq_left hle2] at htake
          exact htake
        · omega
      · rw [if_neg hdrop] at h
        by_cases he : errorIfNoContext
        · rw [if_pos he] at h
          exact absurd h (by simp)
        · rw [if_neg he] at h
          cases h
          exact ⟨(List.take_length _).symm, Nat.le_refl _⟩
    · rw [if_neg hrem] at h
      cases h
      exact ⟨(List.take_length _).symm, Nat.le_refl _⟩

/-- Auxiliary induction (on a length bound) for the case in which no candidate
list ever reaches sufficient headroom: with `error_if_no_context = False`, the
recursion bottoms out at the one-element prefix of the candidate list (at the
empty list only when it started empty). -/
theorem fit_never_enough_aux {α : Type} (remaining : List α → Int)
    (writeTokens : Int) (hall : ∀ l, remaining l < writeTokens) :
    ∀ (n : Nat) (files : List α), files.length ≤ n →
      fit remaining writeTokens false files = Except.ok (files.take 1) := by
  intro n
  induction n with
  | zero =>
    intro files hlen
    have hnil : files = [] := List.length_eq_zero.mp (Nat.le_zero.mp hlen)
    subst hnil
    rw [fit_eq, if_pos (hall [])]
    simp
  | succ m ih =>
    intro files hlen
    match files with
    | [] =>
      rw [fit_eq, if_pos (hall [])]
      simp
    | [a] =>
      rw [fit_eq, if_pos (hall [a])]
      simp
    | a :: b :: t =>
      rw [fit_eq, if_pos (hall _)]
      have hdrop : 0 < (a :: b :: t).dropLast.length := by
        simp [List.length_dropLast]
      rw [if_pos hdrop]
      have hlen2 : (a :: b :: t).dropLast.length ≤ m := by
        simp only [List.length_dropLast, List.length_cons] at *
        omega
      rw [ih _ hlen2]
      simp [List.dropLast_cons₂]

/-- C1: for every initial read-only candidate list, a successful run of the
context-fitting recursion returns a session whose read-only file list is an
initial segment (prefix) of that list; moreover at any step where the
snapshot's `remaining_tokens` is below the `write_tokens` reservation and more
than one candidate remains, the algorithm recurses on exactly the list with
its last (least-prioritized) element removed, whose length is strictly
smaller.  Termination within the initial list length is witnessed by `fit`
being a total function defined by well-founded recursion on `files.length`. -/
theorem fit_returns_prefix_and_drops_last {α : Type} (remaining : List α → Int)
    (writeTokens : Int) (errorIfNoContext : Bool) (files result : List α)
    (h : fit remaining writeTokens errorIfNoContext files = Except.ok result) :
    (result = files.take result.length ∧ result.length ≤ files.length) ∧
    (remaining files < writeTokens → 1 < files.length →
      fit remaining writeTokens errorIfNoContext files
        = fit remaining writeTokens errorIfNoContext files.dropLast ∧
      files.dropLast = files.take (files.length - 1) ∧
      files.dropLast.length + 1 = files.length) := by
  refine ⟨fit_ok_take remaining writeTokens errorIfNoContext files.length files result
      (Nat.le_refl _) h, ?_⟩
  intro hrem hlen
  have hdrop : 0 < files.dropLast.length := by
    simp only [List.length_dropLast]
    omega
  refine ⟨?_, dropLast_eq_take_pred files, ?_⟩
  · conv_lhs => rw [fit_eq]
    rw [if_pos hrem, if_pos hdrop]
  · simp only [List.length_dropLast]
    omega

/-- Witness for C1 at the concrete input `remaining ≡ 0`, `write_tokens = 1`,
lenient mode, candidates `["a", "b"]`: the run returns `ok ["a"]`. -/
theorem fit_returns_prefix_and_drops_last_witness :
    ((["a"] = (["a", "b"] : List String).take (["a"] : List String).length ∧
      (["a"] : List String).length ≤ (["a", "b"] : List String).length) ∧
     ((fun _ : List String => (0 : Int)) ["a", "b"] < 1 →
      1 < (["a", "b"] : List String).length →
       fit (fun _ : List String => (0 : Int)) 1 false ["a", "b"]
         = fit (fun _ : List String => (0 : Int)) 1 false
             (["a", "b"] : List String).dropLast ∧
       (["a", "b"] : List String).dropLast
         = (["a", "b"] : List String).take ((["a", "b"] : List String).length - 1) ∧
       (["a", "b"] : List String).dropLast.length + 1
         = (["a", "b"] : List String).length)) :=
  fit_returns_prefix_and_drops_last (fun _ => (0 : Int)) 1 false ["a", "b"] ["a"]
    (by simp [fit])

/-- C3 (amended): when at most one candidate remains and the headroom is still
below the `write_tokens` reservation, the fitting recursion raises
`ContextExhausted` if and only if `error_if_no_context` is true; in lenient
mode it returns the best-effort session — whose headroom is still below the
reservation, though not necessarily negative — without raising. -/
theorem fit_exhausted_error_iff {α : Type} (remaining : List α → Int)
    (writeTokens : Int) (errorIfNoContext : Bool) (files : List α)
    (hlen : files.length ≤ 1) (hrem : remaining files < writeTokens) :
    (fit remaining writeTokens errorIfNoContext files
        = Except.error ContextError.contextExhausted ↔ errorIfNoContext = true) ∧
    (errorIfNoContext = false →
      fit remaining writeTokens errorIfNoContext files = Except.ok files) := by
  have hdrop : ¬ 0 < files.dropLast.length := by
    simp only [List.length_dropLast]
    omega
  rw [fit_eq, if_pos hrem, if_neg hdrop]
  cases errorIfNoContext <;> simp

/-- Witness for C3 (amended) at the concrete input `remaining ≡ -5`,
`write_tokens = 0`, strict mode, single candidate `["x"]`. -/
theorem fit_exhausted_error_iff_witness :
    (fit (fun _ : List String => (-5 : Int)) 0 true ["x"]
        = Except.error ContextError.contextExhausted ↔ true = true) ∧
    (true = false →
      fit (fun _ : List String => (-5 : Int)) 0 true ["x"] = Except.ok ["x"]) :=
  fit_exhausted_error_iff (fun _ => (-5 : Int)) 0 true ["x"] (by simp) (by norm_num)

/-- Counterexample to C3 as stated: with the snapshot's remaining headroom at
50, a reservation `write_tokens = 100`, lenient mode and an empty candidate
list, the fitting recursion returns the session without raising, and its
remaining headroom (50) is below the reservation but NOT negative — refuting
the claim's assertion that the lenient best-effort session has negative
remaining headroom. -/
theorem fit_lenient_headroom_not_negative :
    fit (fun _ : List String => (50 : Int)) 100 false [] = Except.ok [] ∧
    (50 : Int) < 100 ∧ ¬ (50 : Int) < 0 :=
  ⟨by simp [fit], by norm_num, by norm_num⟩

/-- C4 (amended): for a candidate list whose headroom never becomes
sufficient, the lenient fitting recursion returns the session holding the
one-element prefix of the list (its most-prioritized candidate); the returned
read-only set is empty only when the initial candidate list was already
empty.  The last surviving candidate is never dropped. -/
theorem fit_exhausted_lenient_returns_head {α : Type} (remaining : List α → Int)
    (writeTokens : Int) (files : List α) (hall : ∀ l, remaining l < writeTokens) :
    fit remaining writeTokens false files = Except.ok (files.take 1) :=
  fit_never_enough_aux remaining writeTokens hall files.length files (Nat.le_refl _)

/-- Witness for C4 (amended) at the concrete input `remaining ≡ -1`,
`write_tokens = 0`, candidates `["x", "y", "z"]`: the result is `ok ["x"]`. -/
theorem fit_exhausted_lenient_returns_head_witness :
    fit (fun _ : List String => (-1 : Int)) 0 false ["x", "y", "z"]
      = Except.ok ["x"] := by
  have h := fit_exhausted_lenient_returns_head (fun _ : List String => (-1 : Int)) 0
    ["x", "y", "z"] (fun _ => by norm_num)
  simpa using h

/-- Counterexample to C4 as stated: with `remaining ≡ -1` (headroom never
sufficient), lenient mode and the non-empty candidate list `["a", "b"]`, the
fitting recursion returns a session whose read-only list is `["a"]`, which is
not empty — refuting the claim that an empty-context session is returned. -/
theorem fit_exhausted_lenient_not_empty :
    fit (fun _ : List String => (-1 : Int)) 0 false ["a", "b"] = Except.ok ["a"] ∧
    (["a"] : List String) ≠ [] :=
  ⟨by simp [fit], by simp⟩

/-- Folding addition of a projection over a list equals the initial value plus
the sum of the projected values. -/
theorem foldl_add_eq {β M : Type} [AddCommMonoid M] (f : β → M) :
    ∀ (l : List β) (init : M),
      l.foldl (fun a b => a + f b) init = init + (l.map f).sum := by
  intro l
  induction l with
  | nil => intro init; simp
  | cons b t ih =>
    intro init
    simp only [List.foldl_cons, List.map_cons, List.sum_cons, ih, add_assoc]

/-- Inserting a key makes it found with the inserted value. -/
theorem dictFind_dictInsert_self (m : List (String × AiderFileInfo))
    (k : String) (v : AiderFileInfo) : dictFind (dictInsert m k v) k = some v := by
  induction m with
  | nil => simp [dictInsert, dictFind]
  | cons p rest ih =>
    by_cases hpk : p.1 = k
    · simp [dictInsert, hpk, dictFind]
    · simp [dictInsert, hpk, dictFind, ih]

/-- Inserting one key leaves lookups at any other key unchanged. -/
theorem dictFind_dictInsert_ne (m : List (String × AiderFileInfo))
    (k1 k2 : String) (v : AiderFileInfo) (h : k1 ≠ k2) :
    dictFind (dictInsert m k1 v) k2 = dictFind m k2 := by
  induction m with
  | nil => simp [dictInsert, dictFind, h]
  | cons p rest ih =>
    by_cases hpk : p.1 = k1
    · simp only [dictInsert, if_pos hpk, dictFind]
      rw [if_neg h]
      have hp2 : ¬ p.1 = k2 := fun hh => h (hpk.symm.trans hh)
      rw [if_neg hp2]
    · simp only [dictInsert, if_neg hpk, dictFind]
      by_cases hp2 : p.1 = k2
      · rw [if_pos hp2, if_pos hp2]
      · rw [if_neg hp2, if_neg hp2, ih]

/-- Every entry of `dictInsert m k v` is an entry of `m` or the new pair. -/
theorem mem_dictInsert (m : List (String × AiderFileInfo)) (k : String)
    (v : AiderFileInfo) (p : String × AiderFileInfo)
    (h : p ∈ dictInsert m k v) : p ∈ m ∨ p = (k, v) := by
  induction m with
  | nil =>
    simp only [dictInsert, List.mem_singleton] at h
    exact Or.inr h
  | cons q rest ih =>
    by_cases hqk : q.1 = k
    · simp only [dictInsert, if_pos hqk, List.mem_cons] at h
      rcases h with h | h
      · exact Or.inr h
      · exact Or.inl (List.mem_cons_of_mem q h)
    · simp only [dictInsert, if_neg hqk, List.mem_cons] at h
      rcases h with h | h
      · exact Or.inl (h ▸ List.mem_cons_self q rest)
      · rcases ih h with h2 | h2
        · exact Or.inl (List.mem_cons_of_mem q h2)
        · exact Or.inr h2

/-- Key membership after an insert. -/
theorem mem_keys_dictInsert (m : List (String × AiderFileInfo)) (k : String)
    (v : AiderFileInfo) (a : String) :
    a ∈ (dictInsert m k v).map Prod.fst ↔ a ∈ m.map Prod.fst ∨ a = k := by
  induction m with
  | nil => simp [dictInsert]
  | cons q rest ih =>
    by_cases hqk : q.1 = k
    · subst hqk
      have hins : dictInsert (q :: rest) q.1 v = (q.1, v) :: rest := by
        simp [dictInsert]
      rw [hins]
      simp only [List.map_cons, List.mem_cons]
      tauto
    · have hins : dictInsert (q :: rest) k v = q :: dictInsert rest k v := by
        simp [dictInsert, hqk]
      rw [hins]
      simp only [List.map_cons, List.mem_cons, ih]
      tauto

/-- Inserting preserves uniqueness of the keys. -/
theorem nodup_keys_dictInsert (m : List (String × AiderFileInfo)) (k : String)
    (v : AiderFileInfo) (h : (m.map Prod.fst).Nodup) :
    ((dictInsert m k v).map Prod.fst).Nodup := by
  induction m with
  | nil => simp [dictInsert]
  | cons q rest ih =>
    simp only [List.map_cons, List.nodup_cons] at h
    obtain ⟨hq, hrest⟩ := h
    by_cases hqk : q.1 = k
    · subst hqk
      have hins : dictInsert (q :: rest) q.1 v = (q.1, v) :: rest := by
        simp [dictInsert]
      rw [hins]
      simp only [List.map_cons, List.nodup_cons]
      exact ⟨hq, hrest⟩
    · have hins : dictInsert (q :: rest) k v = q :: dictInsert rest k v := by
        simp [dictInsert, hqk]
      rw [hins]
      simp only [List.map_cons, List.nodup_cons]
      refine ⟨?_, ih hrest⟩
      intro hmem
      rcases (mem_keys_dictInsert rest k v q.1).mp hmem with h2 | h2
      · exact hq h2
      · exact hqk h2

/-- All entries of an insert satisfy a predicate when the old entries and the
new pair do. -/
theorem entries_dictInsert (P : String × AiderFileInfo → Prop)
    (m : List (String × AiderFileInfo)) (k : String) (v : AiderFileInfo)
    (hm : ∀ p ∈ m, P p) (hv : P (k, v)) : ∀ p ∈ dictInsert m k v, P p :=
  fun p hp => (mem_dictInsert m k v p hp).elim (hm p) (fun h => h ▸ hv)

/-- Any predicate holding of all accumulator entries and of every record
shape the writable pass inserts (relative name, some token count, the
session's unit cost, `readonly = false`) holds of all entries of a
successful writable pass. -/
theorem loadWriteFiles_entries (c : Coder) (P : String × AiderFileInfo → Prop)
    (hrec : ∀ rel tokens,
      P (rel, AiderFileInfo.make rel tokens (token_unit_cost c) false)) :
    ∀ (fps : List String) (acc out : List (String × AiderFileInfo)),
      (∀ p ∈ acc, P p) → loadWriteFiles c fps acc = Except.ok out →
      ∀ p ∈ out, P p := by
  intro fps
  induction fps with
  | nil =>
    intro acc out hacc h
    simp only [loadWriteFiles] at h
    injection h with h2
    exact h2 ▸ hacc
  | cons fp rest ih =>
    intro acc out hacc h
    simp only [loadWriteFiles] at h
    by_cases himg : c.is_image_file (c.get_rel_fname fp) = true
    · rw [if_pos himg] at h
      exact ih _ _ (entries_dictInsert P acc _ _ hacc (hrec _ _)) h
    · rw [if_neg himg] at h
      cases hread : c.read_text fp with
      | none =>
        rw [hread] at h
        exact absurd h (by simp)
      | some content =>
        rw [hread] at h
        exact ih _ _ (entries_dictInsert P acc _ _ hacc (hrec _ _)) h

/-- Any predicate holding of all accumulator entries and of every record
shape the read-only pass inserts (`readonly = true`) holds of all entries of
the read-only pass result. -/
theorem loadReadFiles_entries (c : Coder) (P : String × AiderFileInfo → Prop)
    (hrec : ∀ rel tokens,
      P (rel, AiderFileInfo.make rel tokens (token_unit_cost c) true)) :
    ∀ (fps : List String) (acc : List (String × AiderFileInfo)),
      (∀ p ∈ acc, P p) → ∀ p ∈ loadReadFiles c fps acc, P p := by
  intro fps
  induction fps with
  | nil =>
    intro acc hacc
    simpa only [loadReadFiles] using hacc
  | cons fp rest ih =>
    intro acc hacc
    cases hread : c.read_text fp with
    | none =>
      simp only [loadReadFiles, hread]
      exact ih _ hacc
    | some content =>
      simp only [loadReadFiles, hread]
      by_cases himg : c.is_image_file (c.get_rel_fname fp) = true
      · rw [if_pos himg]
        exact ih _ hacc
      · rw [if_neg himg]
        exact ih _ (entries_dictInsert P acc _ _ hacc (hrec _ _))

/-- The writable pass succeeds when every writable file is an image or has
readable content. -/
theorem loadWriteFiles_ok (c : Coder) :
    ∀ (fps : List String) (acc : List (String × AiderFileInfo)),
      (∀ fp ∈ fps, c.is_image_file (c.get_rel_fname fp) = true ∨
        (c.read_text fp).isSome = true) →
      ∃ out, loadWriteFiles c fps acc = Except.ok out := by
  intro fps
  induction fps with
  | nil =>
    intro acc _
    exact ⟨acc, rfl⟩
  | cons fp rest ih =>
    intro acc hall
    simp only [loadWriteFiles]
    by_cases himg : c.is_image_file (c.get_rel_fname fp) = true
    · rw [if_pos himg]
      exact ih _ (fun q hq => hall q (List.mem_cons_of_mem fp hq))
    · rw [if_neg himg]
      cases hread : c.read_text fp with
      | none =>
        rcases hall fp (List.mem_cons_self fp rest) with h | h
        · exact absurd h himg
        · rw [hread] at h
          exact absurd h (by simp)
      | some content =>
        exact ih _ (fun q hq => hall q (List.mem_cons_of_mem fp hq))

/-- The writable pass fails with the modelled `TypeError` whenever some
writable non-image file has no readable content. -/
theorem loadWriteFiles_error (c : Coder) :
    ∀ (fps : List String) (acc : List (String × AiderFileInfo)) (fp : String),
      fp ∈ fps → c.is_image_file (c.get_rel_fname fp) = false →
      c.read_text fp = none →
      loadWriteFiles c fps acc = Except.error LoadError.typeError := by
  intro fps
  induction fps with
  | nil =>
    intro acc fp hmem
    exact absurd hmem (List.not_mem_nil fp)
  | cons q rest ih =>
    intro acc fp hmem himg hnone
    simp only [loadWriteFiles]
    by_cases hqimg : c.is_image_file (c.get_rel_fname q) = true
    · rw [if_pos hqimg]
      have hfp : fp ∈ rest := by
        rcases List.mem_cons.mp hmem with h | h
        · subst h
          exact absurd hqimg (by simp [himg])
        · exact h
      exact ih _ fp hfp himg hnone
    · rw [if_neg hqimg]
      cases hqread : c.read_text q with
      | none => rfl
      | some content =>
        have hfp : fp ∈ rest := by
          rcases List.mem_cons.mp hmem with h | h
          · subst h
            rw [hqread] at hnone
            exact absurd hnone (by simp)
          · exact h
        exact ih _ fp hfp himg hnone

/-- The writable pass leaves lookups unchanged at any key no writable file
maps to. -/
theorem loadWriteFiles_find_untouched (c : Coder) (k : String) :
    ∀ (fps : List String) (acc out : List (String × AiderFileInfo)),
      (∀ q ∈ fps, c.get_rel_fname q ≠ k) →
      loadWriteFiles c fps acc = Except.ok out →
      dictFind out k = dictFind acc k := by
  intro fps
  induction fps with
  | nil =>
    intro acc out _ h
    simp only [loadWriteFiles] at h
    injection h with h2
    rw [h2]
  | cons fp rest ih =>
    intro acc out hall h
    simp only [loadWriteFiles] at h
    have hne : c.get_rel_fname fp ≠ k := hall fp (List.mem_cons_self fp rest)
    have hrest : ∀ q ∈ rest, c.get_rel_fname q ≠ k :=
      fun q hq => hall q (List.mem_cons_of_mem fp hq)
    by_cases himg : c.is_image_file (c.get_rel_fname fp) = true
    · rw [if_pos himg] at h
      rw [ih _ _ hrest h, dictFind_dictInsert_ne _ _ _ _ hne]
    · rw [if_neg himg] at h
      cases hread : c.read_text fp with
      | none =>
        rw [hread] at h
        exact absurd h (by simp)
      | some content =>
        rw [hread] at h
        rw [ih _ _ hrest h, dictFind_dictInsert_ne _ _ _ _ hne]

/-- The read-only pass leaves lookups unchanged at a key when every read-only
file mapping to that key is skipped (missing content or image). -/
theorem loadReadFiles_find_untouched (c : Coder) (k : String) :
    ∀ (fps : List String) (acc : List (String × AiderFileInfo)),
      (∀ q ∈ fps, c.get_rel_fname q = k →
        (c.read_text q = none ∨ c.is_image_file (c.get_rel_fname q) = true)) →
      dictFind (loadReadFiles c fps acc) k = dictFind acc k := by
  intro fps
  induction fps with
  | nil =>
    intro acc _
    rfl
  | cons fp rest ih =>
    intro acc hall
    have hrest : ∀ q ∈ rest, c.get_rel_fname q = k →
        (c.read_text q = none ∨ c.is_image_file (c.get_rel_fname q) = true) :=
      fun q hq => hall q (List.mem_cons_of_mem fp hq)
    cases hread : c.read_text fp with
    | none =>
      simp only [loadReadFiles, hread]
      exact ih _ hrest
    | some content =>
      simp only [loadReadFiles, hread]
      by_cases himg : c.is_image_file (c.get_rel_fname fp) = true
      · rw [if_pos himg]
        exact ih _ hrest
      · rw [if_neg himg]
        by_cases hk : c.get_rel_fname fp = k
        · rcases hall fp (List.mem_cons_self fp rest) hk with h | h
          · rw [hread] at h
            exact absurd h (by simp)
          · exact absurd h himg
        · rw [ih _ hrest, dictFind_dictInsert_ne _ _ _ _ hk]

/-- Once a key maps to a read-only-marked record, the read-only pass keeps it
mapped to a read-only-marked record (it only ever writes such records). -/
theorem loadReadFiles_keeps_readonly (c : Coder) (k : String) :
    ∀ (fps : List String) (acc : List (String × AiderFileInfo)),
      (∃ info, dictFind acc k = some info ∧ info.readonly = true) →
      ∃ info, dictFind (loadReadFiles c fps acc) k = some info ∧
        info.readonly = true := by
  intro fps
  induction fps with
  | nil =>
    intro acc hacc
    exact hacc
  | cons fp rest ih =>
    intro acc hacc
    cases hread : c.read_text fp with
    | none =>
      simp only [loadReadFiles, hread]
      exact ih _ hacc
    | some content =>
      simp only [loadReadFiles, hread]
      by_cases himg : c.is_image_file (c.get_rel_fname fp) = true
      · rw [if_pos himg]
        exact ih _ hacc
      · rw [if_neg himg]
        by_cases hk : c.get_rel_fname fp = k
        · refine ih _ ⟨AiderFileInfo.make (c.get_rel_fname fp)
            (c.main_model.token_count_text (renderFile (c.get_rel_fname fp) content))
            (token_unit_cost c) true, ?_, rfl⟩
          rw [← hk]
          exact dictFind_dictInsert_self _ _ _
        · refine ih _ ?_
          rwa [dictFind_dictInsert_ne _ _ _ _ hk]

/-- A read-only file with readable, non-image content ends up with a
read-only-marked record under its relative name after the read-only pass. -/
theorem loadReadFiles_records (c : Coder) (p : String) (content : String)
    (hcontent : c.read_text p = some content)
    (himg : c.is_image_file (c.get_rel_fname p) = false) :
    ∀ (fps : List String) (acc : List (String × AiderFileInfo)), p ∈ fps →
      ∃ info, dictFind (loadReadFiles c fps acc) (c.get_rel_fname p) = some info ∧
        info.readonly = true := by
  intro fps
  induction fps with
  | nil =>
    intro acc hmem
    exact absurd hmem (List.not_mem_nil p)
  | cons q rest ih =>
    intro acc hmem
    by_cases hqp : q = p
    · subst hqp
      simp only [loadReadFiles, hcontent, himg, Bool.false_eq_true, if_false]
      apply loadReadFiles_keeps_readonly
      exact ⟨_, dictFind_dictInsert_self _ _ _, rfl⟩
    · have hp : p ∈ rest := by
        rcases List.mem_cons.mp hmem with h | h
        · exact absurd h.symm hqp
        · exact h
      cases hqread : c.read_text q with
      | none =>
        simp only [loadReadFiles, hqread]
        exact ih _ hp
      | some qcontent =>
        simp only [loadReadFiles, hqread]
        by_cases hqimg : c.is_image_file (c.get_rel_fname q) = true
        · rw [if_pos hqimg]
          exact ih _ hp
        · rw [if_neg hqimg]
          exact ih _ hp

/-- If the key of an image file `fp` already maps to `fp`'s image record and
every writable file mapping to that key is `fp` itself, the writable pass
leaves the key mapped to exactly that record. -/
theorem loadWriteFiles_find_image_kept (c : Coder) (fp : String)
    (himg : c.is_image_file (c.get_rel_fname fp) = true) :
    ∀ (fps : List String) (acc out : List (String × AiderFileInfo)),
      (∀ q ∈ fps, c.get_rel_fname q = c.get_rel_fname fp → q = fp) →
      dictFind acc (c.get_rel_fname fp) =
        some (AiderFileInfo.make (c.get_rel_fname fp)
          (c.main_model.token_count_for_image fp) (token_unit_cost c) false) →
      loadWriteFiles c fps acc = Except.ok out →
      dictFind out (c.get_rel_fname fp) =
        some (AiderFileInfo.make (c.get_rel_fname fp)
          (c.main_model.token_count_for_image fp) (token_unit_cost c) false) := by
  intro fps
  induction fps with
  | nil =>
    intro acc out _ hacc h
    simp only [loadWriteFiles] at h
    injection h with h2
    rw [← h2]
    exact hacc
  | cons q rest ih =>
    intro acc out hall hacc h
    simp only [loadWriteFiles] at h
    have hrest : ∀ r ∈ rest, c.get_rel_fname r = c.get_rel_fname fp → r = fp :=
      fun r hr => hall r (List.mem_cons_of_mem q hr)
    by_cases hk : c.get_rel_fname q = c.get_rel_fname fp
    · have hqfp : q = fp := hall q (List.mem_cons_self q rest) hk
      subst hqfp
      rw [if_pos himg] at h
      refine ih _ _ hrest ?_ h
      rw [dictFind_dictInsert_self]
    · by_cases hqimg : c.is_image_file (c.get_rel_fname q) = true
      · rw [if_pos hqimg] at h
        refine ih _ _ hrest ?_ h
        rw [dictFind_dictInsert_ne _ _ _ _ hk]
        exact hacc
      · rw [if_neg hqimg] at h
        cases hqread : c.read_text q with
        | none =>
          rw [hqread] at h
          exact absurd h (by simp)
        | some qcontent =>
          rw [hqread] at h
          refine ih _ _ hrest ?_ h
          rw [dictFind_dictInsert_ne _ _ _ _ hk]
          exact hacc

/-- A writable image file whose relative name no other writable file shares
ends up, after a successful writable pass, with a non-read-only record whose
tokens come from the image-specific counter. -/
theorem loadWriteFiles_image_record (c : Coder) (fp : String)
    (himg : c.is_image_file (c.get_rel_fname fp) = true) :
    ∀ (fps : List String) (acc out : List (String × AiderFileInfo)),
      fp ∈ fps →
      (∀ q ∈ fps, c.get_rel_fname q = c.get_rel_fname fp → q = fp) →
      loadWriteFiles c fps acc = Except.ok out →
      dictFind out (c.get_rel_fname fp) =
        some (AiderFileInfo.make (c.get_rel_fname fp)
          (c.main_model.token_count_for_image fp) (token_unit_cost c) false) := by
  intro fps
  induction fps with
  | nil =>
    intro acc out hmem
    exact absurd hmem (List.not_mem_nil fp)
  | cons q rest ih =>
    intro acc out hmem hall h
    simp only [loadWriteFiles] at h
    have hrest : ∀ r ∈ rest, c.get_rel_fname r = c.get_rel_fname fp → r = fp :=
      fun r hr => hall r (List.mem_cons_of_mem q hr)
    by_cases hqfp : q = fp
    · subst hqfp
      rw [if_pos himg] at h
      refine loadWriteFiles_find_image_kept c q himg rest _ _ hrest ?_ h
      rw [dictFind_dictInsert_self]
    · have hp : fp ∈ rest := by
        rcases List.mem_cons.mp hmem with h2 | h2
        · exact absurd h2.symm hqfp
        · exact h2
      by_cases hqimg : c.is_image_file (c.get_rel_fname q) = true
      · rw [if_pos hqimg] at h
        exact ih _ _ hp hrest h
      · rw [if_neg hqimg] at h
        cases hqread : c.read_text q with
        | none =>
          rw [hqread] at h
          exact absurd h (by simp)
        | some qcontent =>
          rw [hqread] at h
          exact ih _ _ hp hrest h

/-- The writable pass keeps the keys of the file dict free of duplicates. -/
theorem loadWriteFiles_nodup_keys (c : Coder) :
    ∀ (fps : List String) (acc out : List (String × AiderFileInfo)),
      (acc.map Prod.fst).Nodup → loadWriteFiles c fps acc = Except.ok out →
      (out.map Prod.fst).Nodup := by
  intro fps
  induction fps with
  | nil =>
    intro acc out hacc h
    simp only [loadWriteFiles] at h
    injection h with h2
    exact h2 ▸ hacc
  | cons fp rest ih =>
    intro acc out hacc h
    simp only [loadWriteFiles] at h
    by_cases himg : c.is_image_file (c.get_rel_fname fp) = true
    · rw [if_pos himg] at h
      exact ih _ _ (nodup_keys_dictInsert _ _ _ hacc) h
    · rw [if_neg himg] at h
      cases hread : c.read_text fp with
      | none =>
        rw [hread] at h
        exact absurd h (by simp)
      | some content =>
        rw [hread] at h
        exact ih _ _ (nodup_keys_dictInsert _ _ _ hacc) h

/-- The read-only pass keeps the keys of the file dict free of duplicates. -/
theorem loadReadFiles_nodup_keys (c : Coder) :
    ∀ (fps : List String) (acc : List (String × AiderFileInfo)),
      (acc.map Prod.fst).Nodup → ((loadReadFiles c fps acc).map Prod.fst).Nodup := by
  intro fps
  induction fps with
  | nil =>
    intro acc hacc
    exact hacc
  | cons fp rest ih =>
    intro acc hacc
    cases hread : c.read_text fp with
    | none =>
      simp only [loadReadFiles, hread]
      exact ih _ hacc
    | some content =>
      simp only [loadReadFiles, hread]
      by_cases himg : c.is_image_file (c.get_rel_fname fp) = true
      · rw [if_pos himg]
        exact ih _ hacc
      · rw [if_neg himg]
        exact ih _ (nodup_keys_dictInsert _ _ _ hacc)

/-- A read-only file whose content is missing is skipped: deleting it from
the read-only list does not change the read-only pass at all. -/
theorem loadReadFiles_skip_none (c : Coder) (p : String)
    (hnone : c.read_text p = none) :
    ∀ (l1 l2 : List String) (acc : List (String × AiderFileInfo)),
      loadReadFiles c (l1 ++ p :: l2) acc = loadReadFiles c (l1 ++ l2) acc := by
  intro l1
  induction l1 with
  | nil =>
    intro l2 acc
    simp only [List.nil_append, loadReadFiles, hnone]
  | cons q rest ih =>
    intro l2 acc
    cases hqread : c.read_text q with
    | none =>
      simp only [List.cons_append, loadReadFiles, hqread]
      exact ih l2 acc
    | some qcontent =>
      simp only [List.cons_append, loadReadFiles, hqread]
      by_cases hqimg : c.is_image_file (c.get_rel_fname q) = true
      · rw [if_pos hqimg, if_pos hqimg]
        exact ih l2 acc
      · rw [if_neg hqimg, if_neg hqimg]
        exact ih l2 _

/-- The writable pass ignores the `abs_read_only_fnames` field. -/
theorem loadWriteFiles_ro_irrel (c : Coder) (x : List String) :
    ∀ (fps : List String) (acc : List (String × AiderFileInfo)),
      loadWriteFiles { c with abs_read_only_fnames := x } fps acc
        = loadWriteFiles c fps acc := by
  intro fps
  induction fps with
  | nil =>
    intro acc
    rfl
  | cons fp rest ih =>
    intro acc
    simp only [loadWriteFiles]
    by_cases himg : c.is_image_file (c.get_rel_fname fp) = true
    · rw [if_pos himg, if_pos himg]
      exact ih _
    · rw [if_neg himg, if_neg himg]
      cases hread : c.read_text fp with
      | none => rfl
      | some content => exact ih _

/-- The read-only pass reads its file list as an explicit argument and
ignores the `abs_read_only_fnames` field. -/
theorem loadReadFiles_ro_irrel (c : Coder) (x : List String) :
    ∀ (fps : List String) (acc : List (String × AiderFileInfo)),
      loadReadFiles { c with abs_read_only_fnames := x } fps acc
        = loadReadFiles c fps acc := by
  intro fps
  induction fps with
  | nil =>
    intro acc
    rfl
  | cons fp rest ih =>
    intro acc
    cases hread : c.read_text fp with
    | none =>
      simp only [loadReadFiles, hread]
      exact ih _
    | some content =>
      simp only [loadReadFiles, hread]
      by_cases himg : c.is_image_file (c.get_rel_fname fp) = true
      · rw [if_pos himg, if_pos himg]
        exact ih _
      · rw [if_neg himg, if_neg himg]
        exact ih _

/-- The aggregate components and limits ignore `abs_read_only_fnames`. -/
theorem snapshotOf_ro_irrel (c : Coder) (x : List String)
    (files : List (String × AiderFileInfo)) :
    snapshotOf { c with abs_read_only_fnames := x } files = snapshotOf c files := rfl

@[simp]
theorem snapshotOf_files (c : Coder) (files : List (String × AiderFileInfo)) :
    (snapshotOf c files).files = files := rfl

@[simp]
theorem snapshotOf_system_tokens (c : Coder) (files : List (String × AiderFileInfo)) :
    (snapshotOf c files).system_tokens = system_tokens_of c := rfl

@[simp]
theorem snapshotOf_system_token_cost (c : Coder) (files : List (String × AiderFileInfo)) :
    (snapshotOf c files).system_token_cost = system_token_cost_of c := rfl

@[simp]
theorem snapshotOf_chat_tokens (c : Coder) (files : List (String × AiderFileInfo)) :
    (snapshotOf c files).chat_tokens = chat_tokens_of c := rfl

@[simp]
theorem snapshotOf_chat_token_cost (c : Coder) (files : List (String × AiderFileInfo)) :
    (snapshotOf c files).chat_token_cost = chat_token_cost_of c := rfl

@[simp]
theorem snapshotOf_repo_map_tokens (c : Coder) (files : List (String × AiderFileInfo)) :
    (snapshotOf c files).repo_map_tokens = repo_map_tokens_of c := rfl

@[simp]
theorem snapshotOf_repo_map_token_cost (c : Coder) (files : List (String × AiderFileInfo)) :
    (snapshotOf c files).repo_map_token_cost = repo_map_token_cost_of c := rfl

@[simp]
theorem snapshotOf_max_tokens (c : Coder) (files : List (String × AiderFileInfo)) :
    (snapshotOf c files).max_tokens = max_tokens c := rfl

/-- The final total-token fold equals the three aggregates plus the sum of
per-file token counts. -/
theorem snapshotOf_total_tokens (c : Coder) (files : List (String × AiderFileInfo)) :
    (snapshotOf c files).total_tokens =
      system_tokens_of c + chat_tokens_of c + repo_map_tokens_of c +
        (files.map (fun p => p.2.tokens)).sum := by
  simp only [snapshotOf]
  exact foldl_add_eq _ files _

/-- The final total-cost fold equals the three aggregate costs plus the sum
of per-file costs. -/
theorem snapshotOf_total_cost (c : Coder) (files : List (String × AiderFileInfo)) :
    (snapshotOf c files).total_cost =
      system_token_cost_of c + chat_token_cost_of c + repo_map_token_cost_of c +
        (files.map (fun p => p.2.cost)).sum := by
  simp only [snapshotOf]
  exact foldl_add_eq _ files _

/-- `remaining_tokens` is exactly `max_tokens - total_tokens` over `Int`. -/
theorem snapshotOf_remaining_tokens (c : Coder) (files : List (String × AiderFileInfo)) :
    (snapshotOf c files).remaining_tokens =
      ((snapshotOf c files).max_tokens : Int) - ((snapshotOf c files).total_tokens : Int) := rfl

/-- Eliminating a successful `load`: the writable pass succeeded, and the
snapshot is built over the two passes chained. -/
theorem load_ok_elim (c : Coder) (s : AiderSessionInfo)
    (h : load c = Except.ok s) :
    ∃ w, loadWriteFiles c c.abs_fnames [] = Except.ok w ∧
      s = snapshotOf c (loadReadFiles c c.abs_read_only_fnames w) := by
  unfold load at h
  cases hw : loadWriteFiles c c.abs_fnames [] with
  | error e =>
    rw [hw] at h
    exact absurd h (by simp)
  | ok w =>
    rw [hw] at h
    injection h with h2
    exact ⟨w, rfl, h2.symm⟩

/-- C2: for every snapshot produced by `load()`, `total_tokens` is exactly
`system_tokens + chat_tokens + repo_map_tokens` plus the sum of tokens over
all entries of the files mapping, `total_cost` is the analogous sum of the
per-component costs, and `remaining_tokens` is exactly
`max_tokens - total_tokens` over the integers (possibly negative). -/
theorem load_totals_identity (c : Coder) (s : AiderSessionInfo)
    (h : load c = Except.ok s) :
    s.total_tokens = s.system_tokens + s.chat_tokens + s.repo_map_tokens +
      (s.files.map (fun p => p.2.tokens)).sum ∧
    s.total_cost = s.system_token_cost + s.chat_token_cost + s.repo_map_token_cost +
      (s.files.map (fun p => p.2.cost)).sum ∧
    s.remaining_tokens = (s.max_tokens : Int) - (s.total_tokens : Int) := by
  obtain ⟨w, hw, hs⟩ := load_ok_elim c s h
  subst hs
  refine ⟨?_, ?_, rfl⟩
  · rw [snapshotOf_total_tokens]
    simp
  · rw [snapshotOf_total_cost]
    simp

/-- C5: `system_tokens` is the token count of the two system-role messages of
`_get_system_messages`, whose contents carry the system-reminder prompt
twice — appended after the main system prompt inside the first message, and
as the entire content of the second standalone message. -/
theorem load_system_reminder_counted_twice (c : Coder) (s : AiderSessionInfo)
    (h : load c = Except.ok s) :
    s.system_tokens = c.main_model.token_count_messages (get_system_messages c) ∧
    (get_system_messages c).length = 2 ∧
    (∀ m ∈ get_system_messages c, m.role = "system") ∧
    (get_system_messages c).map Message.content =
      [c.fmt_system_prompt c.main_system ++ "\n"
        ++ c.fmt_system_prompt c.system_reminder,
       c.fmt_system_prompt c.system_reminder] := by
  obtain ⟨w, hw, hs⟩ := load_ok_elim c s h
  subst hs
  refine ⟨rfl, rfl, ?_, rfl⟩
  intro m hm
  simp only [get_system_messages, List.mem_cons, List.mem_singleton,
    List.not_mem_nil, or_false] at hm
  rcases hm with hm | hm <;> subst hm <;> rfl

/-- C7: a missing `input_cost_per_token` entry degrades `token_unit_cost` to
`0` and a missing `max_input_tokens` entry degrades `max_tokens` to `0`;
neither absence is an error, and (provided every writable file is an image or
has readable content, the only failure mode `load` has) `load()` still
completes, with every cost figure computed from the degraded `0` value and
`remaining_tokens = -total_tokens`. -/
theorem load_metadata_absence_degrades (c : Coder)
    (hcost : c.main_model.info.input_cost_per_token = none)
    (hmax : c.main_model.info.max_input_tokens = none)
    (hreadable : ∀ fp ∈ c.abs_fnames, c.is_image_file (c.get_rel_fname fp) = true ∨
      (c.read_text fp).isSome = true) :
    token_unit_cost c = 0 ∧ max_tokens c = 0 ∧
    ∃ s, load c = Except.ok s ∧ s.max_tokens = 0 ∧
      s.system_token_cost = 0 ∧ s.chat_token_cost = 0 ∧ s.repo_map_token_cost = 0 ∧
      (∀ p ∈ s.files, p.2.cost = 0) ∧ s.total_cost = 0 ∧
      s.remaining_tokens = -(s.total_tokens : Int) := by
  have hunit : token_unit_cost c = 0 := by
    rw [token_unit_cost, hcost]
    rfl
  have hmax0 : max_tokens c = 0 := by
    rw [max_tokens, hmax]
    rfl
  obtain ⟨w, hw⟩ := loadWriteFiles_ok c c.abs_fnames [] hreadable
  have hcost_entries : ∀ p ∈ loadReadFiles c c.abs_read_only_fnames w,
      (fun q : String × AiderFileInfo => q.2.cost = 0) p := by
    apply loadReadFiles_entries c (fun q => q.2.cost = 0)
    · intro rel tokens
      simp [AiderFileInfo.make, hunit]
    · apply loadWriteFiles_entries c (fun q => q.2.cost = 0) ?_ c.abs_fnames [] w ?_ hw
      · intro rel tokens
        simp [AiderFileInfo.make, hunit]
      · intro p hp
        exact absurd hp (List.not_mem_nil p)
  refine ⟨hunit, hmax0,
    snapshotOf c (loadReadFiles c c.abs_read_only_fnames w), ?_, ?_, ?_, ?_, ?_,
    hcost_entries, ?_, ?_⟩
  · unfold load
    rw [hw]
  · rw [snapshotOf_max_tokens, hmax0]
  · rw [snapshotOf_system_token_cost, system_token_cost_of, hunit, mul_zero]
  · rw [snapshotOf_chat_token_cost, chat_token_cost_of]
    simp [hunit]
  · rw [snapshotOf_repo_map_token_cost, repo_map_token_cost_of, hunit, mul_zero]
  · rw [snapshotOf_total_cost, system_token_cost_of, repo_map_token_cost_of,
      chat_token_cost_of, hunit]
    have hsum : ((loadReadFiles c c.abs_read_only_fnames w).map
        (fun p => p.2.cost)).sum = 0 := by
      apply List.sum_eq_zero
      intro x hx
      rcases List.mem_map.mp hx with ⟨p, hp, hxp⟩
      rw [← hxp]
      exact hcost_entries p hp
    rw [hsum]
    simp
  · rw [snapshotOf_remaining_tokens, snapshotOf_max_tokens, hmax0]
    simp

/-- `load` over a coder with a replaced read-only list: only the read-only
pass input changes. -/
theorem load_ro (c : Coder) (x : List String) :
    load { c with abs_read_only_fnames := x } =
      match loadWriteFiles c c.abs_fnames [] with
      | Except.error e => Except.error e
      | Except.ok w => Except.ok (snapshotOf c (loadReadFiles c x w)) := by
  unfold load
  dsimp only
  rw [loadWriteFiles_ro_irrel c x]
  cases hw : loadWriteFiles c c.abs_fnames [] with
  | error e => rfl
  | ok w =>
    dsimp only
    rw [loadReadFiles_ro_irrel, snapshotOf_ro_irrel]

/-- C9: the `None`-content guard belongs to the read-only pass only.  A
read-only non-image file whose `read_text` is `None` is silently skipped
(`load` behaves exactly as if the file were absent from the read-only list)
and, provided the writable pass has no failing file, `load` completes; a
writable non-image file whose `read_text` is `None` instead makes `load`
fail with the `TypeError` of the unguarded concatenation. -/
theorem load_none_content_guard (c : Coder) (p : String) (l1 l2 : List String)
    (d : Coder) (q : String)
    (hro : c.abs_read_only_fnames = l1 ++ p :: l2)
    (hnone : c.read_text p = none)
    (himg : c.is_image_file (c.get_rel_fname p) = false)
    (hreadable : ∀ fp ∈ c.abs_fnames, c.is_image_file (c.get_rel_fname fp) = true ∨
      (c.read_text fp).isSome = true)
    (hq : q ∈ d.abs_fnames)
    (hqimg : d.is_image_file (d.get_rel_fname q) = false)
    (hqnone : d.read_text q = none) :
    load c = load { c with abs_read_only_fnames := l1 ++ l2 } ∧
    (load c).isOk = true ∧
    load d = Except.error LoadError.typeError := by
  refine ⟨?_, ?_, ?_⟩
  · rw [load_ro c (l1 ++ l2)]
    unfold load
    cases hw : loadWriteFiles c c.abs_fnames [] with
    | error e => rfl
    | ok w =>
      dsimp only
      rw [hro, loadReadFiles_skip_none c p hnone]
  · obtain ⟨w, hw⟩ := loadWriteFiles_ok c c.abs_fnames [] hreadable
    unfold load
    rw [hw]
    rfl
  · unfold load
    rw [loadWriteFiles_error d d.abs_fnames [] q hq hqimg hqnone]

/-- C6 (amended): the read-only pass never records an image file, so an image
file in the read-only set has no entry in the files mapping at all unless the
same path is also writable — in which case the entry is the one the writable
pass recorded, marked non-read-only; and every writable image file (whose
relative name no other tracked file shares) has an entry whose token count
comes from the engine's image-specific counter, not from text rendering. -/
theorem load_image_file_accounting (c : Coder) (s : AiderSessionInfo)
    (fp : String) (h : load c = Except.ok s) (hinj : RelInj c)
    (himg : c.is_image_file (c.get_rel_fname fp) = true) :
    (fp ∈ c.abs_read_only_fnames → fp ∉ c.abs_fnames →
      dictFind s.files (c.get_rel_fname fp) = none) ∧
    (fp ∈ c.abs_fnames →
      dictFind s.files (c.get_rel_fname fp) =
        some (AiderFileInfo.make (c.get_rel_fname fp)
          (c.main_model.token_count_for_image fp) (token_unit_cost c) false)) := by
  obtain ⟨w, hw, hs⟩ := load_ok_elim c s h
  subst hs
  constructor
  · intro hro hnw
    rw [snapshotOf_files]
    rw [loadReadFiles_find_untouched c _ c.abs_read_only_fnames w ?_]
    · rw [loadWriteFiles_find_untouched c _ c.abs_fnames [] w ?_ hw]
      · rfl
      · intro a ha hrel
        have haeq := hinj a (List.mem_append_left _ ha) fp
          (List.mem_append_right _ hro) hrel
        exact hnw (haeq ▸ ha)
    · intro a _ hrel
      right
      rw [hrel]
      exact himg
  · intro hwmem
    rw [snapshotOf_files]
    rw [loadReadFiles_find_untouched c _ c.abs_read_only_fnames w ?_]
    · exact loadWriteFiles_image_record c fp himg c.abs_fnames [] w hwmem
        (fun a ha hrel => hinj a (List.mem_append_left _ ha) fp
          (List.mem_append_left _ hwmem) hrel) hw
    · intro a _ hrel
      right
      rw [hrel]
      exact himg

/-- C8 (amended): for every path in both the writable and the read-only set
that is not an image and whose content is readable, the files mapping of a
successful `load` has unique keys (so exactly one record per path), the
record under that path's relative name is marked read-only — the read-only
pass overwrote the writable pass's record — and `total_tokens` counts each
record, hence that path, exactly once in the sum over the mapping. -/
theorem load_overlap_readonly_overwrites (c : Coder) (s : AiderSessionInfo)
    (p : String) (content : String) (h : load c = Except.ok s)
    (hwmem : p ∈ c.abs_fnames) (hro : p ∈ c.abs_read_only_fnames)
    (himg : c.is_image_file (c.get_rel_fname p) = false)
    (hcontent : c.read_text p = some content) :
    ((s.files.map Prod.fst).Nodup) ∧
    readonlyAt s.files (c.get_rel_fname p) = true ∧
    s.total_tokens = s.system_tokens + s.chat_tokens + s.repo_map_tokens +
      (s.files.map (fun q => q.2.tokens)).sum := by
  obtain ⟨w, hw, hs⟩ := load_ok_elim c s h
  subst hs
  refine ⟨?_, ?_, ?_⟩
  · rw [snapshotOf_files]
    exact loadReadFiles_nodup_keys c _ _
      (loadWriteFiles_nodup_keys c c.abs_fnames [] w (by simp) hw)
  · rw [snapshotOf_files]
    obtain ⟨info, hfind, hinfo⟩ :=
      loadReadFiles_records c p content hcontent himg c.abs_read_only_fnames w hro
    rw [readonlyAt, hfind]
    exact hinfo
  · rw [snapshotOf_total_tokens]
    simp

/-- C10: `get_aider_session` never mutates the caller's stored read-only
candidate list.  For any valid reference, the heap cell holding
`self.read_files` is unchanged after the call — whether it returned a
session or raised — and the computed result is exactly the fitting
recursion applied to the caller's element sequence (the deep copy preserves
it). -/
theorem get_aider_session_frame (remaining : List String → Int)
    (writeTokens : Int) (errorIfNoContext : Bool) (h : PyHeap) (r : Nat)
    (hvalid : r < h.next) :
    ((get_aider_session remaining writeTokens errorIfNoContext h r).2).cells r
      = h.cells r ∧
    (get_aider_session remaining writeTokens errorIfNoContext h r).1
      = fit remaining writeTokens errorIfNoContext (h.cells r) := by
  constructor
  · simp only [get_aider_session, deepcopy, heapAlloc]
    rw [if_neg (Nat.ne_of_lt hvalid)]
  · simp [get_aider_session, deepcopy, heapAlloc]

/-- Witness for C10 at a concrete one-cell heap. -/
theorem get_aider_session_frame_witness :
    ((get_aider_session (fun _ => (0 : Int)) 0 true ⟨fun _ => ["f1"], 1⟩ 0).2).cells 0
      = ["f1"] ∧
    (get_aider_session (fun _ => (0 : Int)) 0 true ⟨fun _ => ["f1"], 1⟩ 0).1
      = fit (fun _ => (0 : Int)) 0 true ["f1"] :=
  get_aider_session_frame (fun _ => (0 : Int)) 0 true ⟨fun _ => ["f1"], 1⟩ 0
    (by norm_num)

/-- Witness for C2 at the concrete engine state `cW`. -/
theorem load_totals_identity_witness :
    sW.total_tokens = sW.system_tokens + sW.chat_tokens + sW.repo_map_tokens +
      (sW.files.map (fun p => p.2.tokens)).sum ∧
    sW.total_cost = sW.system_token_cost + sW.chat_token_cost + sW.repo_map_token_cost +
      (sW.files.map (fun p => p.2.cost)).sum ∧
    sW.remaining_tokens = (sW.max_tokens : Int) - (sW.total_tokens : Int) :=
  load_totals_identity cW sW (by decide)

/-- Witness for C5 at the concrete engine state `cW`. -/
theorem load_system_reminder_counted_twice_witness :
    sW.system_tokens = cW.main_model.token_count_messages (get_system_messages cW) ∧
    (get_system_messages cW).length = 2 ∧
    (∀ m ∈ get_system_messages cW, m.role = "system") ∧
    (get_system_messages cW).map Message.content =
      [cW.fmt_system_prompt cW.main_system ++ "\n"
        ++ cW.fmt_system_prompt cW.system_reminder,
       cW.fmt_system_prompt cW.system_reminder] :=
  load_system_reminder_counted_twice cW sW (by decide)

/-- Witness for C7 at the concrete engine state `cZ`, whose metadata lacks
both keys. -/
theorem load_metadata_absence_degrades_witness :
    token_unit_cost cZ = 0 ∧ max_tokens cZ = 0 ∧
    ∃ s, load cZ = Except.ok s ∧ s.max_tokens = 0 ∧
      s.system_token_cost = 0 ∧ s.chat_token_cost = 0 ∧ s.repo_map_token_cost = 0 ∧
      (∀ p ∈ s.files, p.2.cost = 0) ∧ s.total_cost = 0 ∧
      s.remaining_tokens = -(s.total_tokens : Int) :=
  load_metadata_absence_degrades cZ rfl rfl (by decide)

/-- Witness for C9 at the concrete engine states `cW` (read-only `"none.txt"`
unreadable: skipped, load completes) and `cBad` (writable `"none.txt"`
unreadable: load fails). -/
theorem load_none_content_guard_witness :
    load cW = load { cW with abs_read_only_fnames := ["a.txt"] ++ ["w.txt"] } ∧
    (load cW).isOk = true ∧
    load cBad = Except.error LoadError.typeError :=
  load_none_content_guard cW "none.txt" ["a.txt"] ["w.txt"] cBad "none.txt"
    (by decide) (by decide) (by decide) (by decide) (by decide) (by decide)
    (by decide)

/-- Witness for C6 (amended) at the concrete engine states `cImg2` (image
only read-only: no entry at all) and `cImg` (image also writable: the entry
is the writable pass's image-counted record). -/
theorem load_image_file_accounting_witness :
    dictFind sImg2.files (cImg2.get_rel_fname ("img.png")) = none ∧
    dictFind sImg.files (cImg.get_rel_fname ("img.png")) =
      some (AiderFileInfo.make (cImg.get_rel_fname ("img.png"))
        (cImg.main_model.token_count_for_image ("img.png"))
        (token_unit_cost cImg) false) :=
  ⟨(load_image_file_accounting cImg2 sImg2 "img.png" (by decide)
      (by unfold RelInj; decide) (by decide)).1 (by decide) (by decide),
   (load_image_file_accounting cImg sImg "img.png" (by decide)
      (by unfold RelInj; decide) (by decide)).2 (by decide)⟩

/-- Counterexample to C6 as stated: in `cImg` the path `"img.png"` is an
image file of the read-only set, yet the files mapping of `load cImg` does
have an entry under its relative name — written by the writable pass, since
the same path is also writable — refuting the claim that an image file in
the read-only set has no entry in the files mapping. -/
theorem load_image_readonly_entry_exists :
    ("img.png" : String) ∈ cImg.abs_read_only_fnames ∧
    cImg.is_image_file (cImg.get_rel_fname ("img.png")) = true ∧
    (dictFind (loadFiles cImg) (cImg.get_rel_fname ("img.png"))).isSome = true := by
  decide

/-- Witness for C8 (amended) at the concrete engine state `cW`, whose path
`"w.txt"` is both writable and read-only with readable non-image content. -/
theorem load_overlap_readonly_overwrites_witness :
    ((sW.files.map Prod.fst).Nodup) ∧
    readonlyAt sW.files (cW.get_rel_fname ("w.txt")) = true ∧
    sW.total_tokens = sW.system_tokens + sW.chat_tokens + sW.repo_map_tokens +
      (sW.files.map (fun q => q.2.tokens)).sum :=
  load_overlap_readonly_overwrites cW sW "w.txt" "W" (by decide) (by decide)
    (by decide) (by decide) (by decide)

/-- Counterexample to C8 as stated: in `cImg` the path `"img.png"` is present
in both the writable and the read-only set, the files mapping of `load cImg`
has a record for it — but that record is NOT marked read-only (the read-only
pass skips image files and never overwrites it), refuting the claim for
image paths. -/
theorem load_overlap_image_record_not_readonly :
    ("img.png" : String) ∈ cImg.abs_fnames ∧
    ("img.png" : String) ∈ cImg.abs_read_only_fnames ∧
    (dictFind (loadFiles cImg) (cImg.get_rel_fname ("img.png"))).isSome = true ∧
    readonlyAt (loadFiles cImg) (cImg.get_rel_fname ("img.png")) = false := by
  decide

end ZimagiAider
